import Mathlib

/-!
Shallow embedding of the odds-keyed result cache, the retry supervisor and the
orchestration loop of `src/scripts/omqb_scraper.py`, together with theorems
settling the specification claims about them.

Modelling conventions:
* pandas DataFrames that hold the cache are modelled as `List CacheRec`, one
  element per row, in row order.
* a cell of the two result columns (`Back_Model`, `Indicators_Model`) is an
  `Option String`; `none` models a pandas missing value (NaN / None).
* a cell of the three odds columns is a `PyVal`: either a Python float
  (modelled as a rational number) or a Python string.  `load_cache_df` coerces
  these columns to numbers while `cache_upsert` inserts strings, so both kinds
  occur and pandas comparisons between them raise `TypeError`.
* Python code that can raise is embedded in `Except String`, the error text
  naming the exception.
-/

set_option linter.all false

deriving instance DecidableEq for Except

/-- A value stored in an odds column cell: a Python float (modelled as an exact
rational) or a Python string. -/
inductive PyVal where
  | num (q : ℚ)
  | str (s : String)
deriving DecidableEq

/-- True when the cell holds a float. -/
def PyVal.isNum : PyVal → Bool
  | .num _ => true
  | .str _ => false

/-- True when the cell holds a string. -/
def PyVal.isStr : PyVal → Bool
  | .num _ => false
  | .str _ => true

/-- One row of the cache DataFrame, fields in CACHE_COLS order
(Odd_Back_H, Odd_Back_D, Odd_Back_A, Back_Model, Indicators_Model, KeyOdds). -/
structure CacheRec where
  oddH : PyVal
  oddD : PyVal
  oddA : PyVal
  back : Option String
  indic : Option String
  key : String
deriving DecidableEq

/-- The dict returned by `cache_lookup` on a hit. -/
structure LookupHit where
  back : String
  indic : String
  key : String
deriving DecidableEq

/-- The exception text raised by the log line of `cache_lookup`
(src/scripts/omqb_scraper.py line 525), which interpolates `df.cache.empty`
although no variable `df` exists in any enclosing scope. -/
def nameErrorDf : String := "NameError: name df is not defined"

/-- Embedding of `cache_lookup` (src/scripts/omqb_scraper.py lines 522-547).
On an empty key or empty cache the function executes
`LOG.info(f"df_cache.empty: {df.cache.empty}")`, whose f-string evaluates the
undefined name `df` and raises NameError before the `return None` is reached.
Otherwise it filters rows whose KeyOdds equals the key, returns `none` when no
row matches, and otherwise inspects only `isna` of the first matching row's two
result cells: both present gives a hit dict built from that row. -/
def cache_lookup (dfCache : List CacheRec) (keyodds : String) :
    Except String (Option LookupHit) :=
  if keyodds = "" || dfCache.isEmpty then
    Except.error nameErrorDf
  else
    match dfCache.filter (fun r => r.key == keyodds) with
    | [] => Except.ok none
    | r :: _ =>
      match r.back, r.indic with
      | some b, some i => Except.ok (some (LookupHit.mk b i r.key))
      | _, _ => Except.ok none

/-- Helper for `splitChar`: accumulates the current field (reversed). -/
def splitCharGo (sep : Char) : List Char → List Char → List (List Char)
  | [], acc => [acc.reverse]
  | c :: cs, acc =>
    if c = sep then acc.reverse :: splitCharGo sep cs []
    else splitCharGo sep cs (c :: acc)

/-- Models Python `str.split(sep)` for a one-character separator: every
occurrence splits, empty fields are kept, the empty string yields one empty
field. -/
def splitChar (sep : Char) (s : String) : List String :=
  (splitCharGo sep s.data []).map String.mk

/-- Models `keyodds.split("-")` as used by `cache_upsert`. -/
def pySplitDash (s : String) : List String := splitChar '-' s

/-- Lexicographic code-point comparison of two character runs — how Python
compares strings. -/
def strLtList : List Char → List Char → Bool
  | [], [] => false
  | [], _ :: _ => true
  | _ :: _, [] => false
  | a :: as, b :: bs =>
    if a.toNat < b.toNat then true
    else if b.toNat < a.toNat then false
    else strLtList as bs

/-- Python string `<`. -/
def pyStrLt (a b : String) : Bool := strLtList a.data b.data

/-- Strict comparison of two odds cells as pandas compares them while sorting:
float with float, string with string (lexicographically by code point).  The
mixed cases never matter because `sortValuesByOdds` raises before comparing a
float with a string, as pandas does. -/
def pyValLt : PyVal → PyVal → Bool
  | .num x, .num y => Rat.blt x y
  | .str x, .str y => pyStrLt x y
  | .num _, .str _ => true
  | .str _, .num _ => false

/-- Lexicographic row comparison on the numeric-odds triple of columns
(Odd_Back_H, Odd_Back_D, Odd_Back_A), the `by=` list of the `sort_values`
call in `cache_upsert`. -/
def recLe (r s : CacheRec) : Bool :=
  if r.oddH = s.oddH then
    if r.oddD = s.oddD then !pyValLt s.oddA r.oddA
    else pyValLt r.oddD s.oddD
  else pyValLt r.oddH s.oddH

/-- One odds column can be sorted by pandas iff its cells are all floats or all
strings; a column mixing the two raises TypeError during factorization. -/
def colHomogeneous (f : CacheRec → PyVal) (l : List CacheRec) : Bool :=
  l.all (fun r => (f r).isNum) || l.all (fun r => (f r).isStr)

/-- The exception text of a pandas sort over a column mixing strings and
floats. -/
def sortTypeError : String :=
  "TypeError: < not supported between instances of str and float"

/-- Models `df.sort_values(by=[Odd_Back_H, Odd_Back_D, Odd_Back_A],
ascending=True, ignore_index=True)`: raises when any of the three sort columns
mixes floats and strings, otherwise returns the rows reordered by the
lexicographic row comparison. -/
def sortValuesByOdds (l : List CacheRec) : Except String (List CacheRec) :=
  if colHomogeneous (fun r => r.oddH) l && colHomogeneous (fun r => r.oddD) l &&
      colHomogeneous (fun r => r.oddA) l then
    Except.ok (l.insertionSort (fun r s => recLe r s = true))
  else
    Except.error sortTypeError

/-- The exception text of `h, d, a = keyodds.split("-")` when the split does
not produce exactly three parts. -/
def valueErrorUnpack : String := "ValueError: not enough values to unpack"

/-- Embedding of `cache_upsert` (src/scripts/omqb_scraper.py lines 550-576).
`h, d, a = keyodds.split("-")` binds the three key parts as strings (raising
ValueError unless the split has exactly three fields); the new row therefore
stores its odds cells as strings.  An empty cache is replaced by the one-row
frame without sorting; otherwise the row is appended when the key is absent or
the two result cells of every matching row are overwritten when it is present,
and the frame is re-sorted by the three odds columns. -/
def cache_upsert (dfCache : List CacheRec) (keyodds : String)
    (backVal indicVal : Option String) : Except String (List CacheRec) :=
  match pySplitDash keyodds with
  | [h, d, a] =>
    let row : CacheRec :=
      CacheRec.mk (PyVal.str h) (PyVal.str d) (PyVal.str a) backVal indicVal keyodds
    if dfCache.isEmpty then
      Except.ok [row]
    else if (dfCache.filter (fun r => r.key == keyodds)).isEmpty then
      sortValuesByOdds (dfCache ++ [row])
    else
      sortValuesByOdds (dfCache.map (fun r =>
        if r.key == keyodds then
          CacheRec.mk r.oddH r.oddD r.oddA backVal indicVal r.key
        else r))
  | _ => Except.error valueErrorUnpack

/-- ASCII lower-casing of one character, as `str.lower()` acts on the
sentinel strings involved. -/
def asciiLower (c : Char) : Char :=
  if 65 ≤ c.toNat ∧ c.toNat ≤ 90 then Char.ofNat (c.toNat + 32) else c

/-- Whitespace stripped by `str.strip()` (ASCII forms). -/
def isPySpace (c : Char) : Bool :=
  c = ' ' || c = '\t' || c = '\n' || c = '\r' || c.toNat = 11 || c.toNat = 12

/-- Models Python `str.strip()`. -/
def pyStrip (s : String) : String :=
  String.mk ((s.data.dropWhile isPySpace).reverse.dropWhile isPySpace).reverse

/-- Models Python `str.lower()` on ASCII text. -/
def pyLower (s : String) : String := String.mk (s.data.map asciiLower)

/-- Embedding of `_is_filled` (src/scripts/omqb_scraper.py lines 467-475): a
cell counts as filled only when it is not missing and its text, stripped and
lower-cased, is none of "", "nan", "null", "none".  This is the spec's notion
of a present (non-empty, non-sentinel) result field. -/
def is_filled : Option String → Bool
  | none => false
  | some s =>
    let t := pyLower (pyStrip s)
    !(t = "" || t = "nan" || t = "null" || t = "none")

/-- Number of cache rows carrying a given key. -/
def countKey (k : String) (c : List CacheRec) : ℕ :=
  (c.filter (fun r => r.key == k)).length

/-- The data-model invariant: at most one record per key, stated as key
distinctness. -/
def keysNodup (c : List CacheRec) : Prop := (c.map (fun r => r.key)).Nodup

/-- All odds cells of the cache are strings — the representation every row
inserted by `cache_upsert` has. -/
def allStrOdds (c : List CacheRec) : Bool :=
  c.all (fun r => r.oddH.isStr && r.oddD.isStr && r.oddA.isStr)

/-- The value of a successful Python `float(...)` conversion: a finite value
(modelled exactly as a rational), a NaN, or a signed infinity. -/
inductive PyNum where
  | fin (q : ℚ)
  | nan
  | inf
  | ninf
deriving DecidableEq

/-- Negation, for a leading minus sign (the sign of a NaN is dropped, as in
the text produced for it). -/
def PyNum.neg : PyNum → PyNum
  | .fin q => .fin (-q)
  | .nan => .nan
  | .inf => .ninf
  | .ninf => .inf

/-- An argument of `normalize_odds`: already a Python number, or a string
still to be parsed by `float`. -/
inductive OddsInput where
  | num (v : PyNum)
  | str (s : String)
deriving DecidableEq

/-- Decimal digit test. -/
def isDigitChar (c : Char) : Bool := 48 ≤ c.toNat && c.toNat ≤ 57

/-- Value of a digit run, most significant first. -/
def digitsToNat : List Char → ℕ → ℕ
  | [], acc => acc
  | c :: cs, acc => digitsToNat cs (acc * 10 + (c.toNat - 48))

/-- Parses the mantissa of a float literal: digits with at most one point and
at least one digit overall (`12`, `12.`, `.5`, `1.25`).  The value of
`ip.fp` is the digit run `ip ++ fp` divided by ten to the length of `fp`,
built here directly as a normalized fraction. -/
def parseMantissa (cs : List Char) : Option ℚ :=
  match splitCharGo '.' cs [] with
  | [ip] =>
    if ip ≠ [] && ip.all isDigitChar then some (mkRat (digitsToNat ip 0) 1) else none
  | [ip, fp] =>
    if (ip ++ fp) ≠ [] && (ip ++ fp).all isDigitChar then
      some (mkRat (digitsToNat (ip ++ fp) 0) (10 ^ fp.length))
    else none
  | _ => none

/-- Parses an optionally signed nonempty digit run (a float-literal
exponent). -/
def parseSignedInt : List Char → Option ℤ
  | '+' :: cs =>
    if cs ≠ [] && cs.all isDigitChar then some ((digitsToNat cs 0 : ℤ)) else none
  | '-' :: cs =>
    if cs ≠ [] && cs.all isDigitChar then some (-(digitsToNat cs 0 : ℤ)) else none
  | cs =>
    if cs ≠ [] && cs.all isDigitChar then some ((digitsToNat cs 0 : ℤ)) else none

/-- Multiplies a rational by ten to an integer power (the effect of a float
literal exponent), scaling the numerator or the denominator. -/
def scalePow10 (e : ℤ) (q : ℚ) : ℚ :=
  if 0 ≤ e then mkRat (q.num * ((10 ^ e.toNat : ℕ) : ℤ)) q.den
  else mkRat q.num (q.den * 10 ^ (-e).toNat)

/-- Parses an unsigned float literal body (already stripped and lower-cased):
the special words inf / infinity / nan, or a mantissa with an optional
exponent part. -/
def parseUnsignedFloat (cs : List Char) : Option PyNum :=
  if cs = "inf".data || cs = "infinity".data then some PyNum.inf
  else if cs = "nan".data then some PyNum.nan
  else
    match splitCharGo 'e' cs [] with
    | [m] => (parseMantissa m).map PyNum.fin
    | [m, ex] =>
      match parseMantissa m, parseSignedInt ex with
      | some q, some e => some (PyNum.fin (scalePow10 e q))
      | _, _ => none
    | _ => none

/-- Optional leading sign of a float literal. -/
def parseSignedFloat : List Char → Option PyNum
  | '+' :: cs => parseUnsignedFloat cs
  | '-' :: cs => (parseUnsignedFloat cs).map PyNum.neg
  | cs => parseUnsignedFloat cs

/-- Models Python `float(s)` on a string: surrounding whitespace is stripped,
case is ignored, and the decimal-literal grammar (optional sign, digits with
an optional point, optional exponent) or the special words inf / infinity /
nan are accepted; anything else raises, modelled as `none`.
(Digit-group underscores and non-ASCII digits are outside the model.) -/
def pyFloatOfString (s : String) : Option PyNum :=
  parseSignedFloat (pyLower (pyStrip s)).data

/-- Models Python `float(x)` on the inputs `normalize_odds` receives: a number
converts to itself, a string is parsed. -/
def pyFloat : OddsInput → Option PyNum
  | .num v => some v
  | .str s => pyFloatOfString s

/-- Rounds a rational to the nearest integer, ties to even — the rounding of
Python `round`.  The fractional part `x - ⌊x⌋` is compared with one half by
cross-multiplication on the numerator and denominator, keeping everything in
integer arithmetic. -/
def rhe (x : ℚ) : ℤ :=
  let f := x.floor
  let t := 2 * (x.num - f * (x.den : ℤ))
  if t < (x.den : ℤ) then f
  else if (x.den : ℤ) < t then f + 1
  else if f % 2 = 0 then f else f + 1

/-- The rational `q` scaled by `10 ^ nd`, as a normalized fraction. -/
def qMulPow10 (nd : ℕ) (q : ℚ) : ℚ := mkRat (q.num * ((10 ^ nd : ℕ) : ℤ)) q.den

/-- Rounds a rational to `nd` decimal places, ties to even. -/
def roundQ (nd : ℕ) (q : ℚ) : ℚ := mkRat (rhe (qMulPow10 nd q)) (10 ^ nd)

/-- Models Python `round(x, nd)` on a float: NaN and the infinities round to
themselves, finite values round to `nd` decimals (half to even). -/
def pyRound (nd : ℕ) : PyNum → PyNum
  | .fin q => .fin (roundQ nd q)
  | v => v

/-- Pads a digit string on the left with zeros to the wanted width. -/
def padZeros (nd : ℕ) (s : String) : String :=
  String.mk (List.replicate (nd - s.data.length) '0') ++ s

/-- Models the fixed-point f-string format with `nd` digits for the values normalize
produces: NaN prints nan, the infinities print inf / -inf, and a finite value
that is an exact multiple of 10^-nd prints sign, integer part, point and `nd`
fraction digits. -/
def formatFixed (nd : ℕ) : PyNum → String
  | .nan => "nan"
  | .inf => "inf"
  | .ninf => "-inf"
  | .fin q =>
    let n : ℤ := (qMulPow10 nd q).floor
    let sign := if n < 0 then "-" else ""
    if nd = 0 then sign ++ toString n.natAbs
    else
      sign ++ toString (n.natAbs / 10 ^ nd) ++ "." ++
        padZeros nd (toString (n.natAbs % 10 ^ nd))

/-- Embedding of `normalize_odds` (src/scripts/omqb_scraper.py lines 446-454):
each of the three inputs is converted with `float` and rounded to `nd`
decimals; if any conversion raises, the except branch returns
`(None, None, None, "")`; otherwise the key joins the three fixed-point
renderings with "-". -/
def normalize_odds (h d a : OddsInput) (nd : ℕ) :
    Option PyNum × Option PyNum × Option PyNum × String :=
  match pyFloat h, pyFloat d, pyFloat a with
  | some hv, some dv, some av =>
    let h2 := pyRound nd hv
    let d2 := pyRound nd dv
    let a2 := pyRound nd av
    (some h2, some d2, some a2,
      formatFixed nd h2 ++ "-" ++ formatFixed nd d2 ++ "-" ++ formatFixed nd a2)
  | _, _, _ => (none, none, none, "")

/-- Outcome of one attempt (`_do_one_attempt` run in a fresh worker context):
either both alert texts, or the exception the attempt raised (a timeout, a
WebDriver fault, or the RuntimeError raised for a result failing
`_is_filled`). -/
inductive AttemptOutcome where
  | success (back indic : String)
  | failure (e : String)
deriving DecidableEq

/-- True when the attempt failed. -/
def AttemptOutcome.isFailure : AttemptOutcome → Bool
  | .failure _ => true
  | .success _ _ => false

/-- The retry loop of `process_with_retry` (src/scripts/omqb_scraper.py lines
415-442), with the running `last_exc`: the first successful attempt returns
its pair, each failure is recorded and retried, and after the last attempt the
recorded exception is re-raised (or a bare RuntimeError when no attempt
ran). -/
def retryGo : List AttemptOutcome → Option String → Except String (String × String)
  | [], last => Except.error (last.getD "RuntimeError: Scraping failed without details")
  | o :: rest, _ =>
    match o with
    | .success b i => Except.ok (b, i)
    | .failure e => retryGo rest (some e)

/-- Embedding of `process_with_retry`, the list holding the outcome each of
the up-to-`max_attempts` attempts would produce (one fresh worker per
attempt). -/
def process_with_retry (outcomes : List AttemptOutcome) :
    Except String (String × String) :=
  retryGo outcomes none

/-- One input row of the orchestration loop; only its KeyOdds column steers
the cache logic (the date / league / team / odds columns are carried through
untouched). -/
structure InItem where
  keyOdds : String
deriving DecidableEq

/-- One output row: the input row plus the two obtained texts. -/
structure OutRow where
  item : InItem
  back : String
  indic : String
deriving DecidableEq

/-- The mutable state of one run of `main`: the in-memory cache, the collected
output rows, and the hit counter. -/
structure RunState where
  cache : List CacheRec
  rows : List OutRow
  hits : ℕ
deriving DecidableEq

/-- The miss path of the per-item loop body (src/scripts/omqb_scraper.py lines
679-692): `process_with_retry` inside try/except — any exception skips the
item (`continue`) with the state unchanged; on success the cache is upserted
(an upsert exception propagates, it is outside the try) and the output row is
appended. -/
def stepMiss (scrapeRes : Except String (String × String)) (st : RunState)
    (it : InItem) : Except String RunState :=
  match scrapeRes with
  | Except.error _ => Except.ok st
  | Except.ok (b, i) =>
    match cache_upsert st.cache it.keyOdds (some b) (some i) with
    | Except.error e => Except.error e
    | Except.ok c2 =>
      Except.ok (RunState.mk c2 (st.rows ++ [OutRow.mk it b i]) st.hits)

/-- One iteration of the per-item loop of `main` (src/scripts/omqb_scraper.py
lines 661-692): a falsy key is skipped; otherwise the cache is consulted
(ENABLE_CACHE is the constant True; a lookup exception propagates), and the
hit branch — a hit dict whose two texts are truthy — appends the cached texts
and bumps the hit counter, every other case taking the miss path.
`scrapeRes` is what `process_with_retry` returns for this item. -/
def stepItem (scrapeRes : Except String (String × String)) (st : RunState)
    (it : InItem) : Except String RunState :=
  if it.keyOdds = "" then Except.ok st
  else
    match cache_lookup st.cache it.keyOdds with
    | Except.error e => Except.error e
    | Except.ok (some hit) =>
      if hit.back = "" ∨ hit.indic = "" then stepMiss scrapeRes st it
      else
        Except.ok (RunState.mk st.cache
          (st.rows ++ [OutRow.mk it hit.back hit.indic]) (st.hits + 1))
    | Except.ok none => stepMiss scrapeRes st it

/-- The pre-scan of `main` (src/scripts/omqb_scraper.py lines 652-659), which
walks the items until the first cache miss to set need_scrape (a flag nothing
reads afterwards); a lookup exception propagates out of `main`. -/
def preScan (c : List CacheRec) : List InItem → Except String Unit
  | [] => Except.ok ()
  | it :: rest =>
    match cache_lookup c it.keyOdds with
    | Except.error e => Except.error e
    | Except.ok none => Except.ok ()
    | Except.ok (some _) => preScan c rest

/-- The per-item loop of `main` over the input rows, threading the run
state. -/
def runItems (scrape : InItem → Except String (String × String)) :
    RunState → List InItem → Except String RunState
  | st, [] => Except.ok st
  | st, it :: rest =>
    match stepItem (scrape it) st it with
    | Except.error e => Except.error e
    | Except.ok st2 => runItems scrape st2 rest

/-- Models `save_cache_df` (src/scripts/omqb_scraper.py lines 511-519):
`df[CACHE_COLS].copy()` projects the exact columns a `CacheRec` already has
and the rows are written in order, so the persisted records are the in-memory
records unchanged. -/
def save_cache_df (c : List CacheRec) : List CacheRec := c

/-- The cache-relevant core of `main` (src/scripts/omqb_scraper.py lines
644-697): pre-scan, then the per-item loop started from the loaded cache with
no output rows and a zero hit counter.  `scrape` gives the retry result each
item would obtain from `process_with_retry`. -/
def mainCore (scrape : InItem → Except String (String × String))
    (cache0 : List CacheRec) (items : List InItem) : Except String RunState :=
  match preScan cache0 items with
  | Except.error e => Except.error e
  | Except.ok _ => runItems scrape (RunState.mk cache0 [] 0) items

/-- ATTEMPT_TIMEOUT (25 s) in tenths of a second. -/
def ATTEMPT_TIMEOUT_DS : ℕ := 250

/-- The `time.sleep(0.5)` of the TimeoutError handler, in tenths of a
second. -/
def PKILL_SLEEP_DS : ℕ := 5

/-- The reclamation grace period (hard_kill_after = 3 s in `resilient_quit`),
in tenths of a second. -/
def GRACE_DS : ℕ := 30

/-- Timing model of the per-attempt body of `process_with_retry`
(src/scripts/omqb_scraper.py lines 421-436).  The worker thread runs
`_do_one_attempt`; `tWork` is the instant it finishes (`none` when the work
function never returns).  `fut.result(timeout=attempt_timeout)` hands the
result back as soon as the worker finishes within the deadline; past the
deadline it raises TimeoutError, the handler runs pkill and sleeps 0.5 s, and
then leaving the `with cf.ThreadPoolExecutor(...)` block calls
`shutdown(wait=True)`, which joins the still-running worker thread — so the
body only returns once the worker itself finishes.  The result is the instant
the body returns control to the loop, `none` when it never does. -/
def attemptBodyReturn (tWork : Option ℕ) : Option ℕ :=
  match tWork with
  | some t =>
    if t ≤ ATTEMPT_TIMEOUT_DS then some t
    else some (max (ATTEMPT_TIMEOUT_DS + PKILL_SLEEP_DS) t)
  | none => none

/-- The condition under which the per-item loop body takes its hit branch for
the item, as a function of the cache the loop would consult: the key is
truthy, the lookup returns a hit dict, and both its texts are truthy. -/
def hitCondB (c : List CacheRec) (it : InItem) : Bool :=
  !(it.keyOdds == "") &&
    match cache_lookup c it.keyOdds with
    | Except.ok (some ht) => !(ht.back == "") && !(ht.indic == "")
    | _ => false

/-- C1: the spec claims the per-attempt body returns within the deadline plus
the reclamation grace period even when the work function never returns, and
that after the deadline it reports the Timeout without blocking further on the
worker.  In the code the `with cf.ThreadPoolExecutor` block joins the worker
thread on exit, so with a never-returning work function the body never returns
at all, and a worker finishing at 1000 s is waited for far past the bound. -/
theorem attempt_body_blocks_on_hung_worker :
    attemptBodyReturn none = none ∧
      attemptBodyReturn (some 10000) = some 10000 ∧
      ATTEMPT_TIMEOUT_DS + GRACE_DS < 10000 :=
  ⟨rfl, by decide, by decide⟩

/-- C2: the spec claims lookup against an empty or invalid key, or an empty
cache, short-circuits to a miss without raising.  The code instead raises
NameError from the log f-string referencing the undefined name `df` on
exactly those inputs: here an empty cache with a well-formed key, and a
nonempty cache with an empty key. -/
theorem cache_lookup_raises_nameerror :
    cache_lookup [] "2.10-3.40-3.20" = Except.error nameErrorDf ∧
      cache_lookup
        [CacheRec.mk (PyVal.str "2.10") (PyVal.str "3.40") (PyVal.str "3.20")
          (some "BACK OK") (some "IND OK") "2.10-3.40-3.20"] ""
        = Except.error nameErrorDf := by
  exact ⟨by decide, by decide⟩

/-- C3: the spec claims the orchestrator run always completes, items failing
only individually.  With an empty cache (the spec's own "including an empty
cache" case) and one item, the unguarded `cache_lookup` call of the pre-scan
raises NameError and the whole run aborts before any item is processed. -/
theorem main_aborts_on_empty_cache :
    mainCore (fun _ => Except.error "RuntimeError: Scraping failed without details")
        [] [InItem.mk "2.10-3.40-3.20"] = Except.error nameErrorDf := by
  decide

/-- C7: the spec claims `cache_upsert` re-sorts the cache by the numeric odds
triple without raising.  First conjunct: upserting a fresh key into a cache as
`load_cache_df` produces it (numeric odds cells) appends a string-odds row and
the sort raises TypeError.  Second conjunct: on an all-string cache the sort
succeeds but is lexicographic, leaving the 10.50 row before the 2.00 row —
not the numeric order. -/
theorem upsert_sort_raises_or_sorts_lexicographically :
    cache_upsert
        [CacheRec.mk (PyVal.num (mkRat 3 1)) (PyVal.num (mkRat 17 5))
          (PyVal.num (mkRat 16 5)) (some "BACK OK") (some "IND OK")
          "3.00-3.40-3.20"]
        "2.10-3.40-3.20" (some "B") (some "I") = Except.error sortTypeError ∧
      cache_upsert
          [CacheRec.mk (PyVal.str "10.50") (PyVal.str "2.00") (PyVal.str "2.00")
            (some "B1") (some "I1") "10.50-2.00-2.00"]
          "2.00-3.00-4.00" (some "B2") (some "I2")
        = Except.ok
            [CacheRec.mk (PyVal.str "10.50") (PyVal.str "2.00") (PyVal.str "2.00")
              (some "B1") (some "I1") "10.50-2.00-2.00",
              CacheRec.mk (PyVal.str "2.00") (PyVal.str "3.00") (PyVal.str "4.00")
                (some "B2") (some "I2") "2.00-3.00-4.00"] := by
  exact ⟨by decide, by decide⟩

/-- C5 counterexample: on a cache satisfying the one-record-per-key invariant
whose odds cells are numeric (the representation `load_cache_df` establishes),
an upsert of an absent key does not insert a record — it raises TypeError in
the sort step instead. -/
theorem upsert_on_numeric_cache_does_not_insert :
    cache_upsert
        [CacheRec.mk (PyVal.num (mkRat 2 1)) (PyVal.num (mkRat 2 1))
          (PyVal.num (mkRat 2 1)) (some "B0") (some "I0") "2.00-2.00-2.00"]
        "1.50-1.50-1.50" (some "B1") (some "I1") = Except.error sortTypeError := by
  decide

/-- C4 counterexample: a record whose two result cells hold the sentinel text
"null" — not present in the spec's sense, as `is_filled` confirms — is
nevertheless returned as a hit by `cache_lookup`, which only tests `isna`. -/
theorem lookup_hits_sentinel_record :
    cache_lookup
        [CacheRec.mk (PyVal.str "2.10") (PyVal.str "3.40") (PyVal.str "3.20")
          (some "null") (some "null") "2.10-3.40-3.20"] "2.10-3.40-3.20"
        = Except.ok (some (LookupHit.mk "null" "null" "2.10-3.40-3.20")) ∧
      is_filled (some "null") = false := by
  exact ⟨by decide, by decide⟩

/-- C8 counterexample: the claim says inputs parsing to zero (and negative,
NaN or infinite values) produce no key.  `normalize_odds` only fails when
`float` raises: the all-zero triple yields the key "0.00-0.00-0.00", and a
NaN / infinite / negative triple yields the key "nan-inf--2.00". -/
theorem normalize_zero_produces_key :
    normalize_odds (OddsInput.num (PyNum.fin (mkRat 0 1)))
        (OddsInput.num (PyNum.fin (mkRat 0 1)))
        (OddsInput.num (PyNum.fin (mkRat 0 1))) 2
      = (some (PyNum.fin (mkRat 0 1)), some (PyNum.fin (mkRat 0 1)),
          some (PyNum.fin (mkRat 0 1)), "0.00-0.00-0.00") ∧
      (normalize_odds (OddsInput.num PyNum.nan) (OddsInput.num PyNum.inf)
          (OddsInput.num (PyNum.fin (mkRat (-2) 1))) 2).2.2.2
        = "nan-inf--2.00" := by
  exact ⟨by decide, by decide⟩

/-- An all-failure run of the retry loop re-raises the exception of its last
attempt, whatever exception was recorded before it started. -/
theorem retryGo_all_failures (outs : List AttemptOutcome) (e : String)
    (hfail : outs.all AttemptOutcome.isFailure = true)
    (hlast : outs.getLast? = some (AttemptOutcome.failure e)) :
    ∀ last, retryGo outs last = Except.error e := by
  induction outs with
  | nil => simp at hlast
  | cons o rest ih =>
    intro last
    rw [List.all_cons, Bool.and_eq_true] at hfail
    obtain ⟨ho, hrest⟩ := hfail
    cases o with
    | success b i => simp [AttemptOutcome.isFailure] at ho
    | failure e0 =>
      cases rest with
      | nil =>
        have he : e0 = e := by
          simpa using hlast
        simp [retryGo, he]
      | cons o2 rest2 =>
        have hlast2 : (o2 :: rest2).getLast? = some (AttemptOutcome.failure e) := by
          simpa [List.getLast?_cons_cons] using hlast
        simpa [retryGo] using ih hrest hlast2 (some e0)

/-- C6: when every attempt fails, `process_with_retry` re-raises the last
attempt's exception, and the per-item loop body catches it and skips the item
with the run state unchanged — the item reaches neither the output rows nor
the cache. -/
theorem retry_exhaustion_skips_item (outs : List AttemptOutcome) (e : String)
    (st : RunState) (it : InItem)
    (hfail : outs.all AttemptOutcome.isFailure = true)
    (hlast : outs.getLast? = some (AttemptOutcome.failure e))
    (hkey : ¬it.keyOdds = "")
    (hmiss : cache_lookup st.cache it.keyOdds = Except.ok none) :
    process_with_retry outs = Except.error e ∧
      stepItem (process_with_retry outs) st it = Except.ok st := by
  have hret : process_with_retry outs = Except.error e :=
    retryGo_all_failures outs e hfail hlast none
  refine ⟨hret, ?_⟩
  simp [stepItem, hkey, hmiss, hret, stepMiss]

/-- Witness for C6 at a concrete item: two failing attempts on a fresh key
against a one-record cache leave the state untouched and surface the second
exception. -/
theorem retry_exhaustion_skips_item_witness :
    process_with_retry [AttemptOutcome.failure "TimeoutError",
        AttemptOutcome.failure "WebDriverException"]
      = Except.error "WebDriverException" ∧
      stepItem
          (process_with_retry [AttemptOutcome.failure "TimeoutError",
            AttemptOutcome.failure "WebDriverException"])
          (RunState.mk
            [CacheRec.mk (PyVal.str "2.10") (PyVal.str "3.40") (PyVal.str "3.20")
              (some "B") (some "I") "2.10-3.40-3.20"] [] 0)
          (InItem.mk "9.99-9.99-9.99")
        = Except.ok (RunState.mk
            [CacheRec.mk (PyVal.str "2.10") (PyVal.str "3.40") (PyVal.str "3.20")
              (some "B") (some "I") "2.10-3.40-3.20"] [] 0) :=
  retry_exhaustion_skips_item _ _ _ _ (by decide) (by decide) (by decide) (by decide)

/-- A key joining three fragments with dashes is never the empty string. -/
theorem dash_key_ne_empty (x y z : String) : x ++ "-" ++ y ++ "-" ++ z ≠ "" := by
  intro h
  have hl := congrArg String.length h
  rw [String.length_append, String.length_append, String.length_append,
    String.length_append] at hl
  have h1 : ("-" : String).length = 1 := rfl
  have h0 : ("" : String).length = 0 := rfl
  rw [h1, h0] at hl
  omega

/-- C8 (amended): `normalize_odds` produces no key exactly when some input is
not parseable by `float` at all — an input parsing to zero, a negative value,
NaN or an infinity still yields a key — and the orchestrator treats an item
whose key is falsy as a skip, not as a fatal error. -/
theorem normalize_fails_iff_unparseable (h d a : OddsInput) (nd : ℕ) :
    ((normalize_odds h d a nd).2.2.2 = "" ↔
      pyFloat h = none ∨ pyFloat d = none ∨ pyFloat a = none) ∧
      ∀ s st it, it.keyOdds = "" → stepItem s st it = Except.ok st := by
  constructor
  · cases hh : pyFloat h with
    | none => simp [normalize_odds, hh]
    | some hv =>
      cases hd : pyFloat d with
      | none => simp [normalize_odds, hh, hd]
      | some dv =>
        cases ha : pyFloat a with
        | none => simp [normalize_odds, hh, hd, ha]
        | some av =>
          simp only [normalize_odds, hh, hd, ha]
          exact iff_of_false (dash_key_ne_empty _ _ _) (by simp)
  · intro s st it hkey
    simp [stepItem, hkey]

/-- Witness for C8: an unparseable first input yields the empty key, and an
item with a falsy key is skipped by the loop body without touching the
state. -/
theorem normalize_fails_iff_unparseable_witness :
    (normalize_odds (OddsInput.str "abc") (OddsInput.num (PyNum.fin (mkRat 2 1)))
        (OddsInput.num (PyNum.fin (mkRat 2 1))) 2).2.2.2 = "" ∧
      stepItem (Except.error "RetriesExhausted") (RunState.mk [] [] 0) (InItem.mk "")
        = Except.ok (RunState.mk [] [] 0) :=
  ⟨(normalize_fails_iff_unparseable (OddsInput.str "abc")
      (OddsInput.num (PyNum.fin (mkRat 2 1))) (OddsInput.num (PyNum.fin (mkRat 2 1)))
      2).1.mpr (Or.inl (by decide)),
    (normalize_fails_iff_unparseable (OddsInput.str "abc")
      (OddsInput.num (PyNum.fin (mkRat 2 1))) (OddsInput.num (PyNum.fin (mkRat 2 1)))
      2).2 (Except.error "RetriesExhausted") (RunState.mk [] [] 0) (InItem.mk "") rfl⟩

/-- Half-even rounding is the identity on integers. -/
theorem rhe_intCast (n : ℤ) : rhe ((n : ℚ)) = n := by
  have hf : ((n : ℚ)).floor = n := by
    rw [show ((n : ℚ)).floor = ⌊(n : ℚ)⌋ from rfl, Int.floor_intCast]
  simp [rhe, hf, Rat.num_intCast, Rat.den_intCast]

/-- Scaling by `qMulPow10` agrees with multiplication by ten to the `nd`. -/
theorem qMulPow10_eq (nd : ℕ) (q : ℚ) : qMulPow10 nd q = q * ((10 : ℚ) ^ nd) := by
  unfold qMulPow10
  rw [Rat.mkRat_eq_divInt, Rat.divInt_eq_div]
  push_cast
  rw [mul_div_right_comm, Rat.num_div_den]

/-- Scaling the rounded fraction back up recovers the rounded integer. -/
theorem qMulPow10_mkRat (nd : ℕ) (m : ℤ) :
    qMulPow10 nd (mkRat m (10 ^ nd)) = (m : ℚ) := by
  rw [qMulPow10_eq, Rat.mkRat_eq_divInt, Rat.divInt_eq_div]
  have hne : ((10 : ℚ) ^ nd) ≠ 0 := by positivity
  push_cast
  field_simp

/-- Rounding to `nd` decimals is idempotent on the rationals. -/
theorem roundQ_idem (nd : ℕ) (q : ℚ) : roundQ nd (roundQ nd q) = roundQ nd q := by
  unfold roundQ
  rw [qMulPow10_mkRat, rhe_intCast]

/-- Python `round(·, nd)` is idempotent on floats. -/
theorem pyRound_idem (nd : ℕ) (v : PyNum) : pyRound nd (pyRound nd v) = pyRound nd v := by
  cases v with
  | fin q => simp [pyRound, roundQ_idem]
  | nan => rfl
  | inf => rfl
  | ninf => rfl

/-- Shape of a successful normalization: each input parsed, each output is the
parsed value rounded, and the key is the dash-joined fixed-point rendering of
the three rounded values. -/
theorem normalize_success_shape (h d a : OddsInput) (nd : ℕ)
    (hv dv av : PyNum) (k : String)
    (hn : normalize_odds h d a nd = (some hv, some dv, some av, k)) :
    (∃ x, pyFloat h = some x ∧ pyRound nd x = hv) ∧
      (∃ y, pyFloat d = some y ∧ pyRound nd y = dv) ∧
      (∃ z, pyFloat a = some z ∧ pyRound nd z = av) ∧
      k = formatFixed nd hv ++ "-" ++ formatFixed nd dv ++ "-" ++ formatFixed nd av := by
  cases hh : pyFloat h with
  | none => simp only [normalize_odds, hh] at hn; simp at hn
  | some x =>
    cases hd : pyFloat d with
    | none => simp only [normalize_odds, hh, hd] at hn; simp at hn
    | some y =>
      cases ha : pyFloat a with
      | none => simp only [normalize_odds, hh, hd, ha] at hn; simp at hn
      | some z =>
        simp only [normalize_odds, hh, hd, ha, Prod.mk.injEq,
          Option.some.injEq] at hn
        obtain ⟨h1, h2, h3, h4⟩ := hn
        exact ⟨⟨x, rfl, h1⟩, ⟨y, rfl, h2⟩, ⟨z, rfl, h3⟩,
          by rw [← h1, ← h2, ← h3, ← h4]⟩

/-- C9: normalization is idempotent and representation-independent.  Feeding
the rounded values a successful `normalize_odds` produced back into
`normalize_odds` returns the same rounded triple and the character-identical
key, and two successful normalizations whose rounded triples agree produce
character-identical keys whatever the original inputs looked like. -/
theorem normalize_idempotent_repr_independent
    (h d a h2 d2 a2 : OddsInput) (nd : ℕ)
    (hv dv av hv2 dv2 av2 : PyNum) (k k2 : String)
    (hn : normalize_odds h d a nd = (some hv, some dv, some av, k))
    (hn2 : normalize_odds h2 d2 a2 nd = (some hv2, some dv2, some av2, k2)) :
    normalize_odds (OddsInput.num hv) (OddsInput.num dv) (OddsInput.num av) nd
        = (some hv, some dv, some av, k) ∧
      (hv = hv2 → dv = dv2 → av = av2 → k = k2) := by
  obtain ⟨⟨x, hx, hxr⟩, ⟨y, hy, hyr⟩, ⟨z, hz, hzr⟩, hk⟩ :=
    normalize_success_shape h d a nd hv dv av k hn
  obtain ⟨-, -, -, hk2⟩ :=
    normalize_success_shape h2 d2 a2 nd hv2 dv2 av2 k2 hn2
  constructor
  · have rh : pyRound nd hv = hv := by rw [← hxr, pyRound_idem]
    have rd : pyRound nd dv = dv := by rw [← hyr, pyRound_idem]
    have ra : pyRound nd av = av := by rw [← hzr, pyRound_idem]
    simp only [normalize_odds, pyFloat, rh, rd, ra]
    rw [hk]
  · intro e1 e2 e3
    rw [hk, hk2, e1, e2, e3]

/-- Witness for C9: the spec's own examples.  `normalize(2.005, 1.995, 4.01,
2)` re-applied to its rounded output returns the identical triple and key
"2.00-2.00-4.01", and `normalize(2, 2, 2)` agrees with
`normalize("2.00", "2.0", "2")` on the key "2.00-2.00-2.00". -/
theorem normalize_idempotent_repr_independent_witness :
    normalize_odds (OddsInput.num (PyNum.fin (mkRat 2 1)))
        (OddsInput.num (PyNum.fin (mkRat 2 1)))
        (OddsInput.num (PyNum.fin (mkRat 401 100))) 2
      = (some (PyNum.fin (mkRat 2 1)), some (PyNum.fin (mkRat 2 1)),
          some (PyNum.fin (mkRat 401 100)), "2.00-2.00-4.01") ∧
      ("2.00-2.00-2.00" : String) = "2.00-2.00-2.00" :=
  ⟨(normalize_idempotent_repr_independent
      (OddsInput.num (PyNum.fin (mkRat 401 200)))
      (OddsInput.num (PyNum.fin (mkRat 399 200)))
      (OddsInput.num (PyNum.fin (mkRat 401 100)))
      (OddsInput.num (PyNum.fin (mkRat 401 200)))
      (OddsInput.num (PyNum.fin (mkRat 399 200)))
      (OddsInput.num (PyNum.fin (mkRat 401 100))) 2
      (PyNum.fin (mkRat 2 1)) (PyNum.fin (mkRat 2 1)) (PyNum.fin (mkRat 401 100))
      (PyNum.fin (mkRat 2 1)) (PyNum.fin (mkRat 2 1)) (PyNum.fin (mkRat 401 100))
      "2.00-2.00-4.01" "2.00-2.00-4.01" (by decide) (by decide)).1,
    (normalize_idempotent_repr_independent
      (OddsInput.num (PyNum.fin (mkRat 2 1))) (OddsInput.num (PyNum.fin (mkRat 2 1)))
      (OddsInput.num (PyNum.fin (mkRat 2 1)))
      (OddsInput.str "2.00") (OddsInput.str "2.0") (OddsInput.str "2") 2
      (PyNum.fin (mkRat 2 1)) (PyNum.fin (mkRat 2 1)) (PyNum.fin (mkRat 2 1))
      (PyNum.fin (mkRat 2 1)) (PyNum.fin (mkRat 2 1)) (PyNum.fin (mkRat 2 1))
      "2.00-2.00-2.00" "2.00-2.00-2.00" (by decide) (by decide)).2 rfl rfl rfl⟩

/-- Unpacking of the Boolean hit condition. -/
theorem hitCondB_spec (c : List CacheRec) (it : InItem)
    (hb : hitCondB c it = true) :
    ¬it.keyOdds = "" ∧
      ∃ ht, cache_lookup c it.keyOdds = Except.ok (some ht) ∧
        ¬ht.back = "" ∧ ¬ht.indic = "" := by
  unfold hitCondB at hb
  rw [Bool.and_eq_true] at hb
  obtain ⟨h1, h2⟩ := hb
  refine ⟨by simpa using h1, ?_⟩
  cases hlk : cache_lookup c it.keyOdds with
  | error e => rw [hlk] at h2; simp at h2
  | ok res =>
    cases res with
    | none => rw [hlk] at h2; simp at h2
    | some ht =>
      rw [hlk] at h2
      simp only [Bool.and_eq_true, Bool.not_eq_true', beq_eq_false_iff_ne] at h2
      exact ⟨ht, rfl, h2.1, h2.2⟩

/-- When every item hits the cache, the pre-scan walks the whole list without
raising and without finding a miss. -/
theorem preScan_all_hits (c : List CacheRec) (items : List InItem)
    (hall : items.all (hitCondB c) = true) : preScan c items = Except.ok () := by
  induction items with
  | nil => rfl
  | cons it rest ih =>
    rw [List.all_cons, Bool.and_eq_true] at hall
    obtain ⟨h1, hrest⟩ := hall
    obtain ⟨-, ht, hlk, -, -⟩ := hitCondB_spec c it h1
    simp [preScan, hlk, ih hrest]

/-- When every item hits the cache the per-item loop succeeds and never
changes the cache, whatever retry results would be available. -/
theorem runItems_all_hits (scrape : InItem → Except String (String × String))
    (cache0 : List CacheRec) (items : List InItem)
    (hall : items.all (hitCondB cache0) = true) :
    ∀ st, st.cache = cache0 →
      ∃ st2, runItems scrape st items = Except.ok st2 ∧ st2.cache = cache0 := by
  induction items with
  | nil => exact fun st hst => ⟨st, rfl, hst⟩
  | cons it rest ih =>
    intro st hst
    rw [List.all_cons, Bool.and_eq_true] at hall
    obtain ⟨h1, hrest⟩ := hall
    obtain ⟨hkey, ht, hlk, hb, hi⟩ := hitCondB_spec cache0 it h1
    have hcond : ¬(ht.back = "" ∨ ht.indic = "") := by
      intro hor
      cases hor with
      | inl hl => exact hb hl
      | inr hr => exact hi hr
    have hstep : stepItem (scrape it) st it
        = Except.ok (RunState.mk st.cache
            (st.rows ++ [OutRow.mk it ht.back ht.indic]) (st.hits + 1)) := by
      unfold stepItem
      rw [if_neg hkey, hst, hlk]
      simp [hcond]
    obtain ⟨st2, hrun, hc⟩ :=
      ih hrest (RunState.mk st.cache
        (st.rows ++ [OutRow.mk it ht.back ht.indic]) (st.hits + 1)) hst
    exact ⟨st2, by simp only [runItems, hstep]; exact hrun, hc⟩

/-- C10: a run in which every item is a cache hit performs no upsert — the
final in-memory cache is the loaded cache, record for record, and so is the
cache handed to `save_cache_df`. -/
theorem main_all_hits_preserves_cache
    (scrape : InItem → Except String (String × String))
    (cache0 : List CacheRec) (items : List InItem)
    (hall : items.all (hitCondB cache0) = true) :
    ∃ st, mainCore scrape cache0 items = Except.ok st ∧ st.cache = cache0 ∧
      save_cache_df st.cache = cache0 := by
  have hpre : preScan cache0 items = Except.ok () := preScan_all_hits cache0 items hall
  obtain ⟨st2, hrun, hc⟩ :=
    runItems_all_hits scrape cache0 items hall (RunState.mk cache0 [] 0) rfl
  refine ⟨st2, ?_, hc, by rw [save_cache_df, hc]⟩
  unfold mainCore
  rw [hpre]
  exact hrun

/-- Witness for C10: a one-record cache and one hitting item leave the cache
to be saved identical to the loaded one. -/
theorem main_all_hits_preserves_cache_witness :
    ∃ st, mainCore (fun _ => Except.error "unused")
        [CacheRec.mk (PyVal.str "2.10") (PyVal.str "3.40") (PyVal.str "3.20")
          (some "BACK OK") (some "IND OK") "2.10-3.40-3.20"]
        [InItem.mk "2.10-3.40-3.20"] = Except.ok st ∧
      st.cache = [CacheRec.mk (PyVal.str "2.10") (PyVal.str "3.40") (PyVal.str "3.20")
        (some "BACK OK") (some "IND OK") "2.10-3.40-3.20"] ∧
      save_cache_df st.cache
        = [CacheRec.mk (PyVal.str "2.10") (PyVal.str "3.40") (PyVal.str "3.20")
            (some "BACK OK") (some "IND OK") "2.10-3.40-3.20"] :=
  main_all_hits_preserves_cache (fun _ => Except.error "unused")
    [CacheRec.mk (PyVal.str "2.10") (PyVal.str "3.40") (PyVal.str "3.20")
      (some "BACK OK") (some "IND OK") "2.10-3.40-3.20"]
    [InItem.mk "2.10-3.40-3.20"] (by decide)

/-- Under the one-record-per-key invariant a key matches at most one row. -/
theorem countKey_le_one (c : List CacheRec) (k : String)
    (hinv : (c.map (fun r => r.key)).Nodup) : countKey k c ≤ 1 := by
  induction c with
  | nil => simp [countKey]
  | cons r c ih =>
    rw [List.map_cons, List.nodup_cons] at hinv
    obtain ⟨hnotin, hnd⟩ := hinv
    by_cases hr : (r.key == k) = true
    · have hk : r.key = k := by simpa using hr
      have hzero : c.filter (fun r2 => r2.key == k) = [] := by
        rw [List.filter_eq_nil_iff]
        intro a ha hak
        apply hnotin
        rw [List.mem_map]
        exact ⟨a, ha, by rw [hk]; simpa using hak⟩
      simp [countKey, List.filter_cons, hr, hzero]
    · simp only [countKey, List.filter_cons, hr]
      simpa [countKey] using ih hnd

/-- C4 (amended): for a nonempty cache satisfying the one-record-per-key
invariant and a nonempty key, `cache_lookup` returns without raising, and it
returns a hit exactly when a record with that key exists whose two result
cells are both non-missing (not NaN/None); the content of the cell text —
emptiness or sentinel words — is not examined, so presence here is weaker
than the spec's `is_filled` sense. -/
theorem cache_lookup_hit_iff_cells_present (c : List CacheRec) (k : String)
    (hinv : (c.map (fun r => r.key)).Nodup) (hc : ¬c = []) (hk : ¬k = "") :
    ∃ res, cache_lookup c k = Except.ok res ∧
      (res.isSome ↔ ∃ r ∈ c, r.key = k ∧ r.back.isSome ∧ r.indic.isSome) := by
  have hemp : c.isEmpty = false := by
    cases c with
    | nil => exact absurd rfl hc
    | cons r c => rfl
  have hcond : (decide (k = "") || c.isEmpty) = false := by
    simp [hk, hemp]
  unfold cache_lookup
  rw [hcond]
  simp only [Bool.false_eq_true, if_false]
  cases hfil : c.filter (fun r => r.key == k) with
  | nil =>
    refine ⟨none, rfl, ?_⟩
    simp only [Option.isSome_none, Bool.false_eq_true, false_iff]
    rintro ⟨r, hr, hrk, -, -⟩
    have : r ∈ c.filter (fun r2 => r2.key == k) :=
      List.mem_filter.mpr ⟨hr, by simpa using hrk⟩
    rw [hfil] at this
    simp at this
  | cons r rest =>
    have hrmem : r ∈ c.filter (fun r2 => r2.key == k) := by
      rw [hfil]
      exact List.mem_cons_self r rest
    obtain ⟨hrc, hrk0⟩ := List.mem_filter.mp hrmem
    have hrk : r.key = k := by simpa using hrk0
    have hcount : countKey k c ≤ 1 := countKey_le_one c k hinv
    have hrest : rest = [] := by
      have hlen : (r :: rest).length ≤ 1 := by
        rw [← hfil]
        exact hcount
      cases rest with
      | nil => rfl
      | cons r2 rest2 => simp at hlen
    have huniq : ∀ r2 ∈ c, r2.key = k → r2 = r := by
      intro r2 hr2 hr2k
      have hmem2 : r2 ∈ c.filter (fun r3 => r3.key == k) :=
        List.mem_filter.mpr ⟨hr2, by simpa using hr2k⟩
      rw [hfil, hrest] at hmem2
      simpa using hmem2
    cases hb : r.back with
    | none =>
      refine ⟨none, by simp [hb], ?_⟩
      simp only [Option.isSome_none, Bool.false_eq_true, false_iff]
      rintro ⟨r2, hr2, hr2k, hb2, -⟩
      rw [huniq r2 hr2 hr2k, hb] at hb2
      simp at hb2
    | some bv =>
      cases hi : r.indic with
      | none =>
        refine ⟨none, by simp [hb, hi], ?_⟩
        simp only [Option.isSome_none, Bool.false_eq_true, false_iff]
        rintro ⟨r2, hr2, hr2k, -, hi2⟩
        rw [huniq r2 hr2 hr2k, hi] at hi2
        simp at hi2
      | some iv =>
        refine ⟨some (LookupHit.mk bv iv r.key), by simp [hb, hi], ?_⟩
        simp only [Option.isSome_some, true_iff]
        exact ⟨r, hrc, hrk, by simp [hb], by simp [hi]⟩

/-- Witness for C4: a one-record cache whose record has both cells present is
a hit for its key. -/
theorem cache_lookup_hit_iff_cells_present_witness :
    ∃ res, cache_lookup
        [CacheRec.mk (PyVal.str "2.10") (PyVal.str "3.40") (PyVal.str "3.20")
          (some "BACK OK") (some "IND OK") "2.10-3.40-3.20"] "2.10-3.40-3.20"
        = Except.ok res ∧
      (res.isSome ↔ ∃ r ∈ [CacheRec.mk (PyVal.str "2.10") (PyVal.str "3.40")
          (PyVal.str "3.20") (some "BACK OK") (some "IND OK") "2.10-3.40-3.20"],
        r.key = "2.10-3.40-3.20" ∧ r.back.isSome ∧ r.indic.isSome) :=
  cache_lookup_hit_iff_cells_present
    [CacheRec.mk (PyVal.str "2.10") (PyVal.str "3.40") (PyVal.str "3.20")
      (some "BACK OK") (some "IND OK") "2.10-3.40-3.20"] "2.10-3.40-3.20"
    (by decide) (by decide) (by decide)

/-- On an all-string cache the three sort columns are homogeneous, so the
pandas sort succeeds and returns a rearrangement of the rows. -/
theorem sortValuesByOdds_allStr (l : List CacheRec) (hstr : allStrOdds l = true) :
    sortValuesByOdds l
      = Except.ok (l.insertionSort (fun r s => recLe r s = true)) := by
  have hall := List.all_eq_true.mp hstr
  have hmk : ∀ f : CacheRec → PyVal, (∀ r ∈ l, (f r).isStr = true) →
      colHomogeneous f l = true := by
    intro f hf
    unfold colHomogeneous
    rw [Bool.or_eq_true]
    exact Or.inr (List.all_eq_true.mpr hf)
  have hH : colHomogeneous (fun r => r.oddH) l = true := by
    apply hmk
    intro r hr
    have h := hall r hr
    simp only [Bool.and_eq_true] at h
    exact h.1.1
  have hD : colHomogeneous (fun r => r.oddD) l = true := by
    apply hmk
    intro r hr
    have h := hall r hr
    simp only [Bool.and_eq_true] at h
    exact h.1.2
  have hA : colHomogeneous (fun r => r.oddA) l = true := by
    apply hmk
    intro r hr
    have h := hall r hr
    simp only [Bool.and_eq_true] at h
    exact h.2
  unfold sortValuesByOdds
  rw [hH, hD, hA]
  rfl

/-- All-string odds cells survive a permutation of the rows. -/
theorem allStrOdds_of_perm (l1 l2 : List CacheRec) (h : l1.Perm l2)
    (ha : allStrOdds l1 = true) : allStrOdds l2 = true := by
  rw [allStrOdds, List.all_eq_true] at ha ⊢
  exact fun r hr => ha r (h.mem_iff.mpr hr)

/-- Permuting the rows does not change how many carry a key. -/
theorem countKey_perm (l1 l2 : List CacheRec) (h : l1.Perm l2) (k : String) :
    countKey k l1 = countKey k l2 := by
  unfold countKey
  exact (h.filter (fun r => r.key == k)).length_eq

/-- A row transformation that preserves keys preserves each key count. -/
theorem countKey_map_keyPreserving (f : CacheRec → CacheRec)
    (hf : ∀ r, (f r).key = r.key) (c : List CacheRec) (k : String) :
    countKey k (c.map f) = countKey k c := by
  induction c with
  | nil => rfl
  | cons r c ih =>
    simp only [countKey, List.map_cons, List.filter_cons, hf r] at ih ⊢
    by_cases h : (r.key == k) = true
    · simp [h, ih]
    · simp only [h]
      exact ih

/-- C5 (amended): on caches in the representation `cache_upsert` itself
builds — all odds cells strings, so the re-sort cannot raise — and satisfying
the one-record-per-key invariant, an upsert whose key splits into three parts
succeeds, inserts the key when absent and overwrites both result cells when
present, preserves the invariant and the representation, and leaves exactly
one record for the key whose two result cells carry the written values; hence
any sequence of repeated identical upserts keeps exactly one such record.  (On
a cache whose odds were loaded as numbers the insert path raises instead; see
the counterexample.) -/
theorem cache_upsert_invariant (c : List CacheRec) (key : String)
    (b i : Option String) (hstr : allStrOdds c = true)
    (hinv : (c.map (fun r => r.key)).Nodup)
    (h3 : ∃ x y z, pySplitDash key = [x, y, z]) :
    ∃ c2, cache_upsert c key b i = Except.ok c2 ∧
      allStrOdds c2 = true ∧ ((c2.map (fun r => r.key)).Nodup) ∧
      countKey key c2 = 1 ∧
      ∀ r ∈ c2, r.key = key → r.back = b ∧ r.indic = i := by
  obtain ⟨x, y, z, hsplit⟩ := h3
  by_cases hce : c = []
  · subst hce
    refine ⟨[CacheRec.mk (PyVal.str x) (PyVal.str y) (PyVal.str z) b i key],
      by simp [cache_upsert, hsplit], ?_, by simp, ?_, ?_⟩
    · simp [allStrOdds, PyVal.isStr]
    · simp [countKey]
    · intro r hr hk2
      simp only [List.mem_singleton] at hr
      subst hr
      exact ⟨rfl, rfl⟩
  · have hcempty : c.isEmpty = false := by
      cases c with
      | nil => exact absurd rfl hce
      | cons r c => rfl
    by_cases habs : (c.filter (fun r => r.key == key)).isEmpty = true
    · -- the key is absent: the row is appended, then the frame is sorted
      have hfilnil : c.filter (fun r => r.key == key) = [] :=
        List.isEmpty_iff.mp habs
      have hknotin : ∀ r ∈ c, ¬r.key = key := by
        intro r hr hkk
        have hmem : r ∈ c.filter (fun r2 => r2.key == key) :=
          List.mem_filter.mpr ⟨hr, by simpa using hkk⟩
        rw [hfilnil] at hmem
        simp at hmem
      have hstep : cache_upsert c key b i
          = sortValuesByOdds (c ++
              [CacheRec.mk (PyVal.str x) (PyVal.str y) (PyVal.str z) b i key]) := by
        simp [cache_upsert, hsplit, hcempty, habs]
      have hrowstr : allStrOdds (c ++
          [CacheRec.mk (PyVal.str x) (PyVal.str y) (PyVal.str z) b i key]) = true := by
        rw [allStrOdds, List.all_eq_true]
        intro r hr
        rcases List.mem_append.mp hr with h1 | h2
        · exact List.all_eq_true.mp hstr r h1
        · simp only [List.mem_singleton] at h2
          subst h2
          rfl
      rw [hstep, sortValuesByOdds_allStr _ hrowstr]
      have hperm := List.perm_insertionSort (fun r s => recLe r s = true)
        (c ++ [CacheRec.mk (PyVal.str x) (PyVal.str y) (PyVal.str z) b i key])
      refine ⟨_, rfl, ?_, ?_, ?_, ?_⟩
      · exact allStrOdds_of_perm _ _ hperm.symm hrowstr
      · have hnd1 : ((c ++
            [CacheRec.mk (PyVal.str x) (PyVal.str y) (PyVal.str z) b i key]).map
              (fun r => r.key)).Nodup := by
          rw [List.map_append, List.nodup_append]
          refine ⟨hinv, by simp, ?_⟩
          intro a ha hb2
          simp only [List.map_cons, List.map_nil, List.mem_singleton] at hb2
          subst hb2
          obtain ⟨r, hr, hrk⟩ := List.mem_map.mp ha
          exact hknotin r hr hrk
        exact (hperm.symm.map (fun r => r.key)).nodup hnd1
      · rw [countKey_perm _ _ hperm key]
        unfold countKey
        rw [List.filter_append, hfilnil]
        simp
      · intro r hr hkk
        have hrl1 := hperm.mem_iff.mp hr
        rcases List.mem_append.mp hrl1 with h1 | h2
        · exact absurd hkk (hknotin r h1)
        · simp only [List.mem_singleton] at h2
          subst h2
          exact ⟨rfl, rfl⟩
    · -- the key is present: both result cells of its row are overwritten
      have hfilne : ¬(c.filter (fun r => r.key == key)) = [] := by
        intro hnil
        rw [hnil] at habs
        simp at habs
      have hstep : cache_upsert c key b i
          = sortValuesByOdds (c.map (fun r =>
              if r.key == key then
                CacheRec.mk r.oddH r.oddD r.oddA b i r.key
              else r)) := by
        simp [cache_upsert, hsplit, hcempty, habs]
      have hupdkey : ∀ r : CacheRec,
          ((fun r => if r.key == key then
            CacheRec.mk r.oddH r.oddD r.oddA b i r.key else r) r).key = r.key := by
        intro r
        by_cases hcond : (r.key == key) = true <;> simp [hcond]
      have hstr1 : allStrOdds (c.map (fun r =>
          if r.key == key then CacheRec.mk r.oddH r.oddD r.oddA b i r.key
          else r)) = true := by
        rw [allStrOdds, List.all_eq_true]
        intro r hr
        obtain ⟨r0, hr0, hfr⟩ := List.mem_map.mp hr
        subst hfr
        have h0 := List.all_eq_true.mp hstr r0 hr0
        by_cases hcond : (r0.key == key) = true <;> simp only [hcond] <;> simpa using h0
      rw [hstep, sortValuesByOdds_allStr _ hstr1]
      have hperm := List.perm_insertionSort (fun r s => recLe r s = true)
        (c.map (fun r =>
          if r.key == key then CacheRec.mk r.oddH r.oddD r.oddA b i r.key else r))
      refine ⟨_, rfl, ?_, ?_, ?_, ?_⟩
      · exact allStrOdds_of_perm _ _ hperm.symm hstr1
      · have hkeys : ((c.map (fun r =>
            if r.key == key then CacheRec.mk r.oddH r.oddD r.oddA b i r.key
            else r)).map (fun r => r.key)) = c.map (fun r => r.key) := by
          rw [List.map_map]
          apply List.map_congr_left
          intro r hr
          exact hupdkey r
        refine (hperm.symm.map (fun r => r.key)).nodup ?_
        rw [hkeys]
        exact hinv
      · rw [countKey_perm _ _ hperm key, countKey_map_keyPreserving _ hupdkey]
        have hge : 1 ≤ countKey key c := by
          have hpos : 0 < (c.filter (fun r => r.key == key)).length :=
            List.length_pos.mpr hfilne
          exact hpos
        have hle := countKey_le_one c key hinv
        omega
      · intro r hr hkk
        have hrl1 := hperm.mem_iff.mp hr
        obtain ⟨r0, hr0, hfr⟩ := List.mem_map.mp hrl1
        by_cases hcond : (r0.key == key) = true
        · rw [← hfr, if_pos hcond]
          exact ⟨rfl, rfl⟩
        · rw [if_neg hcond] at hfr
          subst hfr
          exact absurd (by simpa using hkk) hcond

/-- Witness for C5: upserting a fresh key into a one-record all-string cache
inserts exactly one record with the written cells, preserving the
invariant. -/
theorem cache_upsert_invariant_witness :
    ∃ c2, cache_upsert
        [CacheRec.mk (PyVal.str "3.00") (PyVal.str "3.40") (PyVal.str "3.20")
          (some "B0") (some "I0") "3.00-3.40-3.20"]
        "2.10-3.40-3.20" (some "BACK OK") (some "IND OK") = Except.ok c2 ∧
      allStrOdds c2 = true ∧ ((c2.map (fun r => r.key)).Nodup) ∧
      countKey "2.10-3.40-3.20" c2 = 1 ∧
      ∀ r ∈ c2, r.key = "2.10-3.40-3.20" →
        r.back = some "BACK OK" ∧ r.indic = some "IND OK" :=
  cache_upsert_invariant
    [CacheRec.mk (PyVal.str "3.00") (PyVal.str "3.40") (PyVal.str "3.20")
      (some "B0") (some "I0") "3.00-3.40-3.20"]
    "2.10-3.40-3.20" (some "BACK OK") (some "IND OK") (by decide) (by decide)
    ⟨"2.10", "3.40", "3.20", by decide⟩
